import Mathlib

/-!
Verification development for the Olive Young Global bestseller automation
repository.  The Python sources are shallowly embedded: strings are `List
Char`, monetary amounts extracted by the price parser are integer cents
(every amount the code accepts has exactly two decimal digits, so this is
exact), other real arithmetic is `ℚ`, and fallible effects are `Except`.
-/

/-! ## Character classes (ASCII model of Python's `\s`, `\d`, `\w`) -/

def isSpaceC (c : Char) : Bool :=
  c = ' ' || c = '\t' || c = '\n' || c = '\r' || c = '\x0b' || c = '\x0c'

def isDigitC (c : Char) : Bool := c.isDigit

def isWordC (c : Char) : Bool := c.isAlphanum || c = '_'

def lowerC (c : Char) : Char := c.toLower

/-- Case-insensitive prefix test on character lists. -/
def isPrefixCI : List Char → List Char → Bool
  | [], _ => true
  | _ :: _, [] => false
  | p :: ps, c :: cs => (lowerC c = lowerC p) && isPrefixCI ps cs

/-- Length of the longest prefix satisfying the predicate. -/
def countWhile (f : Char → Bool) : List Char → Nat
  | [] => 0
  | c :: rest => if f c then countWhile f rest + 1 else 0

/-! ## price_parser.py — text normalisation (`_norm`) -/

/-- Python `str.replace("&nbsp;", " ")`: left-to-right, non-overlapping. -/
def replaceNbsp : List Char → List Char
  | '&' :: 'n' :: 'b' :: 's' :: 'p' :: ';' :: rest => ' ' :: replaceNbsp rest
  | c :: rest => c :: replaceNbsp rest
  | [] => []

/-- Implements `_norm`: replace NBSP, the `&nbsp;` entity and newlines by
spaces, in the source's order. -/
def pyNorm (s : List Char) : List Char :=
  (replaceNbsp (s.map fun c => if c = '\xa0' then ' ' else c)).map
    fun c => if c = '\n' then ' ' else c

/-! ## price_parser.py — the six noise regexes of `_strip_noise`

Each matcher returns the length of the (unique leftmost-greedy) match
starting at the head of its input, or 0 when the regex does not match
there. -/

/-- URL_SCHEME_RE = `https?://\S+|//\S+` (case-insensitive). -/
def matchUrlScheme (s : List Char) : Nat :=
  if isPrefixCI "https://".data s then
    let n := countWhile (fun c => !isSpaceC c) (s.drop 8)
    if n = 0 then 0 else 8 + n
  else if isPrefixCI "http://".data s then
    let n := countWhile (fun c => !isSpaceC c) (s.drop 7)
    if n = 0 then 0 else 7 + n
  else if isPrefixCI "//".data s then
    let n := countWhile (fun c => !isSpaceC c) (s.drop 2)
    if n = 0 then 0 else 2 + n
  else 0

/-- Matcher for `"[^"]+"` (with `q` the quote character). -/
def matchQuotedPlus (q : Char) : List Char → Nat
  | c :: rest =>
    if c = q then
      let n := countWhile (fun x => !(x = q)) rest
      if n = 0 then 0 else if (rest.drop n).isEmpty then 0 else n + 2
    else 0
  | [] => 0

/-- One keyword alternative of ATTR_URL_RE = `(?:src|href)\s*=\s*("[^"]+"|'[^']+')`. -/
def matchAttrUrlKw (kw : List Char) (s : List Char) : Nat :=
  if isPrefixCI kw s then
    let r1 := s.drop kw.length
    let w1 := countWhile isSpaceC r1
    match r1.drop w1 with
    | '=' :: r2 =>
      let w2 := countWhile isSpaceC r2
      let r3 := r2.drop w2
      let m1 := matchQuotedPlus '"' r3
      let m2 := if m1 = 0 then matchQuotedPlus (Char.ofNat 39) r3 else m1
      if m2 = 0 then 0 else kw.length + w1 + 1 + w2 + m2
    | _ => 0
  else 0

/-- ATTR_URL_RE (case-insensitive), trying `src` before `href`. -/
def matchAttrUrl (s : List Char) : Nat :=
  let a := matchAttrUrlKw "src".data s
  if a = 0 then matchAttrUrlKw "href".data s else a

/-- PRDTNO_RE = `prdtNo=\w+` (case-insensitive). -/
def matchPrdtNo (s : List Char) : Nat :=
  if isPrefixCI "prdtno=".data s then
    let n := countWhile isWordC (s.drop 7)
    if n = 0 then 0 else 7 + n
  else 0

/-- Matcher for `(?:[^q\\]|\\.)*q`: characters consumed including the closing
quote, or `none` when the quote is never closed (a backslash escapes the next
character; `.` does not match a newline). -/
def matchEscBody (q : Char) : List Char → Option Nat
  | [] => none
  | c :: rest =>
    if c = q then some 1
    else if c = '\\' then
      match rest with
      | [] => none
      | d :: r2 => if d = '\n' then none else (matchEscBody q r2).map (· + 2)
    else (matchEscBody q rest).map (· + 1)

/-- VALUE_ATTR_RE = `value\s*=\s*"(?:[^"\\]|\\.)*"|value\s*=\s*'(?:[^'\\]|\\.)*'`
(case-insensitive). -/
def matchValueAttr (s : List Char) : Nat :=
  if isPrefixCI "value".data s then
    let r1 := s.drop 5
    let w1 := countWhile isSpaceC r1
    match r1.drop w1 with
    | '=' :: r2 =>
      let w2 := countWhile isSpaceC r2
      match r2.drop w2 with
      | c :: body =>
        if c = '"' then
          match matchEscBody '"' body with
          | some m => 5 + w1 + 1 + w2 + 1 + m
          | none => 0
        else if c = Char.ofNat 39 then
          match matchEscBody (Char.ofNat 39) body with
          | some m => 5 + w1 + 1 + w2 + 1 + m
          | none => 0
        else 0
      | [] => 0
    | _ => 0
  else 0

/-- TAG_RE = `<[^>]+>`. -/
def matchTag : List Char → Nat
  | '<' :: rest =>
    let n := countWhile (fun x => !(x = '>')) rest
    if n = 0 then 0 else if (rest.drop n).isEmpty then 0 else n + 2
  | _ => 0

/-- LONGNUM_RE = `\d{5,}` (greedy). -/
def matchLongNum (s : List Char) : Nat :=
  let n := countWhile isDigitC s
  if n < 5 then 0 else n

/-- Matcher for `\s+`. -/
def matchWsRun (s : List Char) : Nat := countWhile isSpaceC s

/-- Python `re.sub(pattern, " ", s)`: scan left to right, replacing each
non-overlapping leftmost match by one space.  The fuel starts at the input
length; every step consumes at least one character, so it never runs out. -/
def gsubSpace (m : List Char → Nat) : Nat → List Char → List Char
  | _, [] => []
  | 0, s => s
  | fuel + 1, c :: rest =>
    let n := m (c :: rest)
    if n = 0 then c :: gsubSpace m fuel rest
    else ' ' :: gsubSpace m fuel ((c :: rest).drop n)

def gsub (m : List Char → Nat) (s : List Char) : List Char := gsubSpace m s.length s

/-- Python `str.strip()` on the ASCII whitespace model. -/
def pyStrip (s : List Char) : List Char :=
  ((s.dropWhile isSpaceC).reverse.dropWhile isSpaceC).reverse

/-- Implements `_strip_noise`: `_norm`, then the six substitutions in source
order (URL, src/href attribute, prdtNo, value attribute, tag, long number),
then whitespace collapsing and strip. -/
def strip_noise (s : List Char) : List Char :=
  pyStrip (gsub matchWsRun (gsub matchLongNum (gsub matchTag (gsub matchValueAttr
    (gsub matchPrdtNo (gsub matchAttrUrl (gsub matchUrlScheme (pyNorm s))))))))

/-! ## price_parser.py — amount extraction -/

def digitsToNat (ds : List Char) : Nat := ds.foldl (fun a c => a * 10 + (c.toNat - 48)) 0

/-- Greedy `(?:,\d{3})*`: consumed length and the digits collected. -/
def commaGroups : List Char → Nat × List Char
  | ',' :: a :: b :: c :: rest =>
    if isDigitC a && isDigitC b && isDigitC c then
      let r := commaGroups rest
      (4 + r.1, a :: b :: c :: r.2)
    else (0, [])
  | _ => (0, [])

/-- Matcher for the amount group `(?:\d{1,3}(?:,\d{3})*|\d+)\.\d{2}` at the
head of the input: consumed length and the amount in cents.  With at most
three leading digits the first alternative (with its greedy comma groups)
is the only branch that can reach the dot; with four or more only `\d+`
can, which Python's backtracking realises the same way. -/
def matchAmountNum (s : List Char) : Option (Nat × Nat) :=
  let l := countWhile isDigitC s
  if l = 0 then none
  else if l ≤ 3 then
    let g := commaGroups (s.drop l)
    match s.drop (l + g.1) with
    | '.' :: a :: b :: _ =>
      if isDigitC a && isDigitC b then
        some (l + g.1 + 3, digitsToNat (s.take l ++ g.2) * 100 + digitsToNat [a, b])
      else none
    | _ => none
  else
    match s.drop l with
    | '.' :: a :: b :: _ =>
      if isDigitC a && isDigitC b then
        some (l + 3, digitsToNat (s.take l) * 100 + digitsToNat [a, b])
      else none
    | _ => none

/-- CURR_RE = `US?\$\s*((?:\d{1,3}(?:,\d{3})*|\d+)\.\d{2})` (case-insensitive):
consumed length and captured cents. -/
def matchCurr (s : List Char) : Option (Nat × Nat) :=
  let pre : Nat :=
    if isPrefixCI "us$".data s then 3
    else if isPrefixCI "u$".data s then 2
    else 0
  if pre = 0 then none
  else
    let w := countWhile isSpaceC (s.drop pre)
    match matchAmountNum (s.drop (pre + w)) with
    | some nv => some (pre + w + nv.1, nv.2)
    | none => none

/-- PLAIN_RE = `\b((?:\d{1,3}(?:,\d{3})*|\d+)\.\d{2})\b`.  The match starts
with a digit, so the leading boundary requires the previous character to be a
non-word character (or the string start); the trailing boundary requires the
character after the match to be non-word (or the end). -/
def matchPlain (prev : Option Char) (s : List Char) : Option (Nat × Nat) :=
  let boundaryOk : Bool := match prev with
    | none => true
    | some c => !isWordC c
  if !boundaryOk then none
  else match matchAmountNum s with
    | some nv =>
      match s.drop nv.1 with
      | [] => some nv
      | c :: _ => if isWordC c then none else some nv
    | none => none

/-- Last character of the consumed segment, to carry the word-boundary context
across a match. -/
def lastConsumed (prev : Option Char) (seg : List Char) : Option Char :=
  match seg.getLast? with
  | some c => some c
  | none => prev

/-- Python `re.finditer`: left-to-right, non-overlapping scan; collects the
captured cents of every match. -/
def scanAmounts (m : Option Char → List Char → Option (Nat × Nat)) :
    Nat → Option Char → List Char → List Nat
  | _, _, [] => []
  | 0, _, _ => []
  | fuel + 1, prev, c :: rest =>
    match m prev (c :: rest) with
    | some nv =>
      nv.2 :: scanAmounts m fuel (lastConsumed prev ((c :: rest).take nv.1)) ((c :: rest).drop nv.1)
    | none => scanAmounts m fuel (some c) rest

def findCurrAmounts (s : List Char) : List Nat :=
  scanAmounts (fun _ t => matchCurr t) s.length none s

def findPlainAmounts (s : List Char) : List Nat :=
  scanAmounts matchPlain s.length none s

/-- Implements `_find_amounts`: currency-prefixed amounts first, then plain
amounts, then the 0.5–500 USD range filter (50–50000 cents). -/
def find_amounts (s : List Char) : List Nat :=
  (findCurrAmounts s ++ findPlainAmounts s).filter fun v => 50 ≤ v && v ≤ 50000

/-- VALUE_RE =
`(?<![A-Za-z0-9_])value(?!\s*=)\s*[:：]?\s*(?:US?\$)?\s*((?:\d{1,3}(?:,\d{3})*|\d+)\.\d{2})`
(case-insensitive), tried at one position (`prev` is the preceding character
for the lookbehind); returns the captured cents. -/
def matchValueRe (prev : Option Char) (s : List Char) : Option Nat :=
  let behindOk : Bool := match prev with
    | none => true
    | some c => !isWordC c
  if !behindOk then none
  else if isPrefixCI "value".data s then
    let r1 := s.drop 5
    let w := countWhile isSpaceC r1
    match r1.drop w with
    | '=' :: _ => none
    | r2 =>
      let r3 := match r2 with
        | ':' :: rr => rr
        | '：' :: rr => rr
        | _ => r2
      let w2 := countWhile isSpaceC r3
      let r4 := r3.drop w2
      let pre : Nat :=
        if isPrefixCI "us$".data r4 then 3
        else if isPrefixCI "u$".data r4 then 2
        else 0
      let r5 := r4.drop pre
      let w3 := countWhile isSpaceC r5
      match matchAmountNum (r5.drop w3) with
      | some nv => some nv.2
      | none => none
  else none

/-- Python `re.search` with VALUE_RE: leftmost match. -/
def searchValue : Nat → Option Char → List Char → Option Nat
  | _, _, [] => none
  | 0, _, _ => none
  | fuel + 1, prev, c :: rest =>
    match matchValueRe prev (c :: rest) with
    | some v => some v
    | none => searchValue fuel (some c) rest

/-! ## price_parser.py — `parse_prices_and_discount` -/

/-- The dictionary `parse_prices_and_discount` returns: exactly these five
keys. -/
structure ParseResult where
  price_current_usd : Option Nat
  price_original_usd : Option Nat
  discount_rate_pct : Option ℚ
  value_price_usd : Option Nat
  has_value_price : Bool
deriving DecidableEq

/-- The stripped text `raw` of `parse_prices_and_discount`. -/
def rawOf (t : List Char) : List Char := strip_noise t

/-- The `value_price` of `parse_prices_and_discount`: the VALUE_RE capture,
discarded unless it lies in [0.5, 500] USD. -/
def value_price_of (t : List Char) : Option Nat :=
  match searchValue (rawOf t).length none (rawOf t) with
  | some v => if 50 ≤ v && v ≤ 50000 then some v else none
  | none => none

/-- The `amounts` list of `parse_prices_and_discount`. -/
def amountsOf (t : List Char) : List Nat := find_amounts (rawOf t)

/-- Python `min` over a non-empty list. -/
def pyListMin : List Nat → Option Nat
  | [] => none
  | a :: r => some (r.foldl min a)

/-- Python `max` over a non-empty list. -/
def pyListMax : List Nat → Option Nat
  | [] => none
  | a :: r => some (r.foldl max a)

/-- The current/original price selection of `parse_prices_and_discount`:
with a Value price and at least one amount, current = first amount and
original = Value; else with two or more amounts, min/max; with exactly one,
that amount twice; with none, both `none`. -/
def currentOriginal (vp : Option Nat) (amounts : List Nat) : Option Nat × Option Nat :=
  match vp, amounts with
  | some v, a :: _ => (some a, some v)
  | _, a :: b :: r => (pyListMin (a :: b :: r), pyListMax (a :: b :: r))
  | _, [a] => (some a, some a)
  | _, [] => (none, none)

/-- Python `round(x, 2)` over `ℚ` (Mathlib `round` in place of the float
banker's rounding; no half-way case is relied on in any proof below). -/
def roundTo2 (x : ℚ) : ℚ := ((round (x * 100) : ℤ) : ℚ) / 100

/-- The discount computation of `parse_prices_and_discount`: only when the
current price exists and the original price is truthy and positive; clamped
below at 0.  Prices are cents, and cur/ori in dollars equals c/o. -/
def discountOf (cur ori : Option Nat) : Option ℚ :=
  match cur, ori with
  | some c, some o =>
    if o ≠ 0 ∧ 0 < o then some (max (roundTo2 ((1 - (c : ℚ) / (o : ℚ)) * 100)) 0)
    else none
  | _, _ => none

/-- Assembles the returned dictionary of `parse_prices_and_discount` from
the Value price and the amounts list. -/
def mkParseResult (vp : Option Nat) (amounts : List Nat) : ParseResult :=
  ⟨(currentOriginal vp amounts).1,
   (match (currentOriginal vp amounts).2 with
    | some o => some o
    | none => (currentOriginal vp amounts).1),
   discountOf (currentOriginal vp amounts).1 (currentOriginal vp amounts).2,
   vp,
   vp.isSome⟩

/-- Implements `parse_prices_and_discount` from price_parser.py. -/
def parse_prices_and_discount (t : List Char) : ParseResult :=
  mkParseResult (value_price_of t) (amountsOf t)

/-! ## app.py — `to_float` and `extract_percent_floor` -/

/-- First match of `[\d]+(?:\.[\d]+)?` scanning left to right (the pattern
starts with a digit, so the first match starts at the first digit). -/
def firstNumberFrom : Nat → List Char → Option ℚ
  | _, [] => none
  | 0, _ => none
  | fuel + 1, c :: rest =>
    if isDigitC c then
      match (c :: rest).drop (countWhile isDigitC (c :: rest)) with
      | '.' :: r2 =>
        if countWhile isDigitC r2 = 0 then
          some ((digitsToNat ((c :: rest).take (countWhile isDigitC (c :: rest))) : ℚ))
        else
          some ((digitsToNat ((c :: rest).take (countWhile isDigitC (c :: rest))) : ℚ) +
            (digitsToNat (r2.take (countWhile isDigitC r2)) : ℚ) /
              ((10 : ℚ) ^ countWhile isDigitC r2))
      | _ => some ((digitsToNat ((c :: rest).take (countWhile isDigitC (c :: rest))) : ℚ))
    else firstNumberFrom fuel rest

/-- Implements `to_float` from app.py. -/
def to_float (s : List Char) : Option ℚ := firstNumberFrom s.length s

/-- Implements `extract_percent_floor` from app.py over exact rationals
(`int(n // 1)` is the floor for the non-negative numbers the regex yields;
Python truthiness of a price is `≠ 0`). -/
def extract_percent_floor (orig_price sale_price : Option ℚ)
    (percent_text : Option (List Char)) : Option ℤ :=
  match (match percent_text with
    | some txt => if txt.isEmpty then none else to_float txt
    | none => none) with
  | some n => some ⌊n⌋
  | none =>
    match orig_price, sale_price with
    | some o, some s =>
      if o ≠ 0 ∧ s ≠ 0 ∧ 0 < o then some (max 0 ⌊(1 - s / o) * 100⌋) else none
    | _, _ => none

/-! ## oy_global.py — `_calc_discount` -/

/-- Implements `_calc_discount` from oy_global.py over exact rationals
(truthiness of a price is `≠ 0`; the guard is `sale <= original - 1e-6`). -/
def calc_discount (sale original : Option ℚ) : Option ℚ :=
  match sale, original with
  | some s, some o =>
    if s ≠ 0 ∧ o ≠ 0 ∧ 0 < o ∧ s ≤ o - 1 / 1000000 then
      some (roundTo2 ((o - s) / o * 100))
    else none
  | _, _ => none

/-! ## slack_notify.py — `analyze`: outer merge on `product_url` and the
four buckets -/

/-- A snapshot row with the columns `analyze` selects. -/
structure RowS where
  product_url : List Char
  rank : Nat
  brand : List Char
  product_name : List Char
deriving DecidableEq

/-- The defaulted thresholds `RISE_TH` and `DROP_TH` of slack_notify.py. -/
def RISE_TH : ℤ := 30

def DROP_TH : ℤ := -30

/-- The merge rows contributed by one today row: the pairs with each
URL-equal prev row, or a single pair with a NaN prev side. -/
def mergeRowsFor (rt : RowS) (p : List RowS) : List (Option RowS × Option RowS) :=
  if (p.filter fun rp => rp.product_url == rt.product_url).isEmpty then [(some rt, none)]
  else (p.filter fun rp => rp.product_url == rt.product_url).map fun rp => (some rt, some rp)

/-- pandas `merge(t, p, on="product_url", how="outer")`: every today/prev
pair with equal URL, plus unmatched today rows (prev side NaN) and unmatched
prev rows (today side NaN). -/
def outerMergeByUrl (t p : List RowS) : List (Option RowS × Option RowS) :=
  (t.flatMap fun rt => mergeRowsFor rt p)
  ++ ((p.filter fun rp => t.all fun rt => !(rt.product_url == rp.product_url)).map
      fun rp => ((none : Option RowS), some rp))

/-- `new_mask`: previous rank absent, today rank present. -/
def analyzeNew (t p : List RowS) : List (Option RowS × Option RowS) :=
  (outerMergeByUrl t p).filter fun m => m.2.isNone && m.1.isSome

/-- `out_mask`: today rank absent, previous rank present. -/
def analyzeOut (t p : List RowS) : List (Option RowS × Option RowS) :=
  (outerMergeByUrl t p).filter fun m => m.1.isNone && m.2.isSome

/-- `stay_mask`: present on both days. -/
def analyzeStay (t p : List RowS) : List (Option RowS × Option RowS) :=
  (outerMergeByUrl t p).filter fun m => m.1.isSome && m.2.isSome

/-- `delta = rank_prev - rank_today` on a merged pair. -/
def deltaOf : Option RowS × Option RowS → ℤ
  | (some rt, some rp) => (rp.rank : ℤ) - (rt.rank : ℤ)
  | _ => 0

/-- `up`: stayers with `delta >= RISE_TH`. -/
def analyzeUp (riseTh : ℤ) (t p : List RowS) : List (Option RowS × Option RowS) :=
  (analyzeStay t p).filter fun m => decide (riseTh ≤ deltaOf m)

/-- `down_in`: stayers with `delta <= DROP_TH`. -/
def analyzeDown (dropTh : ℤ) (t p : List RowS) : List (Option RowS × Option RowS) :=
  (analyzeStay t p).filter fun m => decide (deltaOf m ≤ dropTh)

/-- `out_top30`: the out rows further restricted to previous rank ≤ 30. -/
def analyzeOutTop30 (t p : List RowS) : List (Option RowS × Option RowS) :=
  (analyzeOut t p).filter fun m =>
    match m.2 with
    | some rp => decide (rp.rank ≤ 30)
    | none => false

/-! ## utils.py — `_rank_merge`: left merge on the `url||brand||name` key -/

/-- A snapshot row with the columns `_rank_merge` uses; the string columns may
be NaN (`none`), which `fillna("")` maps to the empty string. -/
structure RowU where
  url : Option (List Char)
  brand : Option (List Char)
  name : Option (List Char)
  rank : Nat
deriving DecidableEq

def fillna (o : Option (List Char)) : List Char := o.getD []

/-- The composite key `url.fillna("") + "||" + brand.fillna("") + "||" +
name.fillna("")`. -/
def mergeKeyU (r : RowU) : List Char :=
  fillna r.url ++ "||".data ++ fillna r.brand ++ "||".data ++ fillna r.name

/-- The merge rows contributed by one today row of `_rank_merge`. -/
def joinRowsFor (rt : RowU) (p : List RowU) : List (RowU × Option RowU) :=
  if (p.filter fun rp => mergeKeyU rp == mergeKeyU rt).isEmpty then [(rt, none)]
  else (p.filter fun rp => mergeKeyU rp == mergeKeyU rt).map fun rp => (rt, some rp)

/-- pandas `merge(kt, kp, on="key", how="left")`. -/
def leftJoinByKey (t p : List RowU) : List (RowU × Option RowU) :=
  t.flatMap fun rt => joinRowsFor rt p

/-- Implements `_rank_merge` from utils.py, projected to the
(rank_today, rank_prev) columns. -/
def rank_merge (t p : List RowU) : List (Nat × Option Nat) :=
  (leftJoinByKey t p).map fun m => (m.1.rank, m.2.map fun r => r.rank)

/-! ## app.py — `build_sections`: top-30 buckets keyed by URL, and the
rising/falling entry lists with their sort keys -/

/-- A snapshot row with the columns `build_sections` uses. -/
structure RowB where
  url : List Char
  rank : Nat
  brand : List Char
  product_name : List Char
deriving DecidableEq

/-- `df[(df["rank"].notna()) & (df["rank"] <= 30)]`. -/
def top30 (rows : List RowB) : List RowB := rows.filter fun r => r.rank ≤ 30

def urlKeys (rows : List RowB) : List (List Char) := rows.map fun r => r.url

/-- `common = set(t30.index) & set(p30.index)` as the list of today's top-30
keys also present in the previous top 30. -/
def bsCommon (t p : List RowB) : List (List Char) :=
  (urlKeys (top30 t)).filter fun u => (urlKeys (top30 p)).contains u

/-- `new = set(t30.index) - set(p30.index)`. -/
def bsNewKeys (t p : List RowB) : List (List Char) :=
  (urlKeys (top30 t)).filter fun u => !((urlKeys (top30 p)).contains u)

/-- `out = set(p30.index) - set(t30.index)` — guarded by the early return
`if len(t30)==0: return S` of `build_sections`, which buckets nothing as out
when today's top 30 is empty. -/
def bsOutKeys (t p : List RowB) : List (List Char) :=
  if (top30 t).isEmpty then []
  else (urlKeys (top30 p)).filter fun u => !((urlKeys (top30 t)).contains u)

/-- `df.loc[k]` on the URL-indexed frame (first row with that key). -/
def locUrl (rows : List RowB) (u : List Char) : Option RowB :=
  rows.find? fun r => r.url == u

/-- Keys of `common` whose rank improved (`imp > 0`). -/
def bsRisingKeys (t p : List RowB) : List (List Char) :=
  (bsCommon t p).filter fun u =>
    match locUrl (top30 t) u, locUrl (top30 p) u with
    | some rt, some rp => decide (rt.rank < rp.rank)
    | _, _ => false

/-- Keys of `common` whose rank dropped (`drop > 0`). -/
def bsFallingKeys (t p : List RowB) : List (List Char) :=
  (bsCommon t p).filter fun u =>
    match locUrl (top30 t) u, locUrl (top30 p) u with
    | some rt, some rp => decide (rp.rank < rt.rank)
    | _, _ => false

/-- Implements `clean_text` from app.py. -/
def clean_text (s : List Char) : List Char := pyStrip (gsub matchWsRun s)

/-- Case-insensitive literal drop of `pat` from the head of `s` (used for the
`re.escape`d brand inside `remove_brand_from_title`'s patterns). -/
def dropCI : List Char → List Char → Option (List Char)
  | [], s => some s
  | _ :: _, [] => none
  | p :: ps, c :: cs => if lowerC c = lowerC p then dropCI ps cs else none

def isDashSep (c : Char) : Bool :=
  c = '-' || c = '–' || c = '—' || c = ':' || c = '|'

/-- One pattern `^O?\s*BRAND\s*C?\s*[-–—:|]*\s*` of `remove_brand_from_title`
(`O`/`C` the optional bracket pair): the remainder after the match, when the
brand matches (everything after the brand is optional, so the match then
always succeeds). -/
def matchBrandPrefix (openC closeC : Char) (b t : List Char) : Option (List Char) :=
  let tryFrom : List Char → Option (List Char) := fun t1 =>
    match dropCI b (t1.dropWhile isSpaceC) with
    | some t3 =>
      let t4 := t3.dropWhile isSpaceC
      let t5 := match t4 with
        | c :: rest => if c = closeC then rest else t4
        | [] => t4
      some (((t5.dropWhile isSpaceC).dropWhile isDashSep).dropWhile isSpaceC)
    | none => none
  match t with
  | c :: rest =>
    if c = openC then
      match tryFrom rest with
      | some r => some r
      | none => tryFrom t
    else tryFrom t
  | [] => tryFrom t

/-- Implements `remove_brand_from_title` from app.py: try the bracket pattern
then the parenthesis pattern; on a match return the stripped remainder. -/
def remove_brand_from_title (title brand : List Char) : List Char :=
  let t := clean_text title
  let b := clean_text brand
  if b.isEmpty then t
  else
    match matchBrandPrefix '[' ']' b t with
    | some r => pyStrip r
    | none =>
      match matchBrandPrefix '(' ')' b t with
      | some r => pyStrip r
      | none => t

/-- Implements `slack_escape` from app.py. -/
def slack_escape (s : List Char) : List Char :=
  s.flatMap fun c =>
    if c = '&' then "&amp;".data
    else if c = '<' then "&lt;".data
    else if c = '>' then "&gt;".data
    else [c]

def natStr (n : Nat) : List Char := (Nat.repr n).data

/-- The Slack link `<url|name>`. -/
def slackLink (url nm : List Char) : List Char :=
  "<".data ++ url ++ "|".data ++ nm ++ ">".data

/-- `line_move` for a strict rise. -/
def lineUp (link : List Char) (prevR currR : Nat) : List Char :=
  "- ".data ++ link ++ " ".data ++ natStr prevR ++ "위 → ".data ++ natStr currR
    ++ "위 (↑".data ++ natStr (prevR - currR) ++ ")".data

/-- `line_move` for a strict drop. -/
def lineDown (link : List Char) (prevR currR : Nat) : List Char :=
  "- ".data ++ link ++ " ".data ++ natStr prevR ++ "위 → ".data ++ natStr currR
    ++ "위 (↓".data ++ natStr (currR - prevR) ++ ")".data

/-- One tuple `(imp, curr_rank, prev_rank, slack_escape(nm), line)` of the
rising/falling lists of `build_sections`. -/
structure MoveEntry where
  move : ℤ
  curr : Nat
  prev : Nat
  name : List Char
  line : List Char
deriving DecidableEq

/-- The rising tuples, in `common` iteration order. -/
def bsRisingEntries (t p : List RowB) : List MoveEntry :=
  (bsCommon t p).filterMap fun u =>
    match locUrl (top30 t) u, locUrl (top30 p) u with
    | some rt, some rp =>
      if rt.rank < rp.rank then
        let nm := slack_escape (remove_brand_from_title rt.product_name rt.brand)
        some ⟨(rp.rank : ℤ) - (rt.rank : ℤ), rt.rank, rp.rank, nm,
              lineUp (slackLink rt.url nm) rp.rank rt.rank⟩
      else none
    | _, _ => none

/-- The falling tuples, in `common` iteration order. -/
def bsFallingEntries (t p : List RowB) : List MoveEntry :=
  (bsCommon t p).filterMap fun u =>
    match locUrl (top30 t) u, locUrl (top30 p) u with
    | some rt, some rp =>
      if rp.rank < rt.rank then
        let nm := slack_escape (remove_brand_from_title rt.product_name rt.brand)
        some ⟨(rt.rank : ℤ) - (rp.rank : ℤ), rt.rank, rp.rank, nm,
              lineDown (slackLink rt.url nm) rp.rank rt.rank⟩
      else none
    | _, _ => none

/-- The Python sort key `lambda x: (-x[0], x[1], x[2], x[3])` as a
lexicographic value. -/
def entryKey (e : MoveEntry) : Lex (ℤ × Lex (ℕ × Lex (ℕ × List Char))) :=
  toLex (-e.move, toLex (e.curr, toLex (e.prev, e.name)))

def entryLE (a b : MoveEntry) : Prop := entryKey a ≤ entryKey b

instance : DecidableRel entryLE :=
  fun a b => inferInstanceAs (Decidable (entryKey a ≤ entryKey b))

instance : IsTotal MoveEntry entryLE :=
  ⟨fun a b => le_total (entryKey a) (entryKey b)⟩

instance : IsTrans MoveEntry entryLE :=
  ⟨fun _ _ _ hab hbc => le_trans hab hbc⟩

/-- `rising.sort(key=...)` then `rising[:3]`. -/
def bsRising (t p : List RowB) : List MoveEntry :=
  ((bsRisingEntries t p).insertionSort entryLE).take 3

/-- `falling.sort(key=...)` then `falling[:5]`. -/
def bsFalling (t p : List RowB) : List MoveEntry :=
  ((bsFallingEntries t p).insertionSort entryLE).take 5

/-- The ordering claimed for the rising/falling lists: move magnitude
descending, ties by today's rank ascending, then previous rank ascending,
then the (escaped, brand-stripped) product name. -/
def claimMoveOrder (a b : MoveEntry) : Prop :=
  b.move < a.move ∨ (a.move = b.move ∧ (a.curr < b.curr ∨ (a.curr = b.curr ∧
    (a.prev < b.prev ∨ (a.prev = b.prev ∧ a.name ≤ b.name)))))

/-! ## utils.py / slack_notify.py / app.py — previous-snapshot selection -/

/-- Python `sorted` on the glob result (lexicographic). -/
def sortedFiles (files : List (List Char)) : List (List Char) :=
  files.insertionSort (· ≤ ·)

/-- Implements `find_latest_prev` from slack_notify.py: the last and the
second-to-last of the sorted file list. -/
def find_latest_prev (files : List (List Char)) :
    Option (List Char) × Option (List Char) :=
  ((sortedFiles files).getLast?, (sortedFiles files).dropLast.getLast?)

/-- `os.path.basename`. -/
def basename (s : List Char) : List Char :=
  (s.reverse.takeWhile fun c => !(c = '/')).reverse

/-- Implements `_latest_csv_before` from utils.py (the file argument of
`load_previous_csv`): last of the sorted list after dropping today's name. -/
def latest_csv_before (files : List (List Char)) (todayName : List Char) :
    Option (List Char) :=
  ((sortedFiles files).filter fun f => !(basename f == todayName)).getLast?

def isLeap (y : Nat) : Bool := (y % 4 = 0 && !(y % 100 = 0)) || y % 400 = 0

def daysInMonth (y m : Nat) : Nat :=
  if m = 2 then (if isLeap y then 29 else 28)
  else if m = 4 || m = 6 || m = 9 || m = 11 then 30
  else 31

/-- Gregorian predecessor of a (year, month, day) date, modelling
`now - dt.timedelta(days=1)` as `yesterday_kst_str` in app.py uses it. -/
def prevDay : Nat × Nat × Nat → Nat × Nat × Nat
  | (y, 1, 1) => (y - 1, 12, 31)
  | (y, m, 1) => (y, m - 1, daysInMonth y (m - 1))
  | (y, m, d) => (y, m, d - 1)

def pad2 (n : Nat) : List Char := if n < 10 then '0' :: natStr n else natStr n

/-- strftime `%Y-%m-%d`. -/
def fmtDate : Nat × Nat × Nat → List Char
  | (y, m, d) => natStr y ++ "-".data ++ pad2 m ++ "-".data ++ pad2 d

/-- `build_filename(d)` from app.py. -/
def build_filename (d : List Char) : List Char :=
  "올리브영글로벌_랭킹_".data ++ d ++ ".csv".data

/-- The file name `main` in app.py downloads as the previous snapshot:
`build_filename(yesterday_kst_str())`, i.e. exactly one calendar day back. -/
def app_prev_filename (today : Nat × Nat × Nat) : List Char :=
  build_filename (fmtDate (prevDay today))

/-! ## Slack posting (app.py `slack_post`, slack_notify.py `post_slack`,
main.py `run`) -/

inductive PostOutcome where
  | printedMessage
  | skippedNotice
  | posted
  | postedLoggedFailure
deriving DecidableEq

/-- Python truthiness of the webhook-URL environment value. -/
def truthyOpt : Option (List Char) → Bool
  | none => false
  | some s => !s.isEmpty

/-- Implements `slack_post` from app.py: without a truthy URL print the
message; otherwise post, and only log when the status is ≥ 300.  The return
type is total: no path raises. -/
def slack_post (webhookUrl : Option (List Char)) (status : Nat) : PostOutcome :=
  if !truthyOpt webhookUrl then .printedMessage
  else if 300 ≤ status then .postedLoggedFailure
  else .posted

/-- Implements `requests.Response.raise_for_status`: HTTPError for any 4xx or
5xx status. -/
def raise_for_status (status : Nat) : Except Nat Unit :=
  if 400 ≤ status && status < 600 then .error status else .ok ()

/-- Implements `post_slack` from slack_notify.py; `Except.error` models the
HTTPError of `resp.raise_for_status()` escaping to the caller. -/
def post_slack (webhookUrl : List Char) (status : Nat) : Except Nat PostOutcome :=
  if webhookUrl.isEmpty then .ok .printedMessage
  else
    match raise_for_status status with
    | .ok _ => .ok .posted
    | .error e => .error e

/-- Implements the Slack part of `run` in main.py: `urlopen` wrapped in
try/except, so an HTTP failure is only printed; without a webhook the send is
skipped with a notice. -/
def run_notify (webhookUrl : List Char) (result : Except (List Char) Nat) : PostOutcome :=
  if webhookUrl.isEmpty then .skippedNotice
  else
    match result with
    | .ok _ => .posted
    | .error _ => .postedLoggedFailure

/-! ## app.py — `fetch_products` -/

/-- The `Product` dataclass of app.py. -/
structure Product where
  rank : Option Nat
  brand : List Char
  title : List Char
  price : Option ℚ
  orig_price : Option ℚ
  discount_percent : Option ℤ
  url : List Char
deriving DecidableEq

/-- Implements `fetch_products` from app.py: the HTTP attempt's outcome and
the Playwright fallback's items are parameters; an `Except.error` is the
caught exception. -/
def fetch_products (httpResult : Except (List Char) (List Product))
    (playwrightItems : List Product) : List Product :=
  match httpResult with
  | .ok items => if 10 ≤ items.length then items else playwrightItems
  | .error _ => playwrightItems

/-! ## Google Drive upload (app.py `drive_upload_csv`,
gdrive_upload.py `upload_to_drive`) -/

structure DriveFile where
  fileId : Nat
  name : List Char
  parent : List Char
  trashed : Bool
  content : List Char
deriving DecidableEq

/-- The `files().list` query
`name = '...' and '<folder>' in parents and trashed = false`. -/
def driveQuery (s : List DriveFile) (folderId nm : List Char) : List DriveFile :=
  s.filter fun f => f.name == nm && f.parent == folderId && !f.trashed

/-- Implements `drive_upload_csv` from app.py: update the first query hit's
content, else create; `freshId` models the id Drive assigns to a created
file. -/
def drive_upload_csv (s : List DriveFile) (folderId nm content : List Char)
    (freshId : Nat) : List DriveFile :=
  match (driveQuery s folderId nm).head? with
  | some f => s.map fun g =>
      if g.fileId = f.fileId then ⟨g.fileId, g.name, g.parent, g.trashed, content⟩ else g
  | none => s ++ [⟨freshId, nm, folderId, false, content⟩]

/-- Implements `upload_to_drive` from gdrive_upload.py: unconditionally
`files().create`. -/
def upload_to_drive (s : List DriveFile) (folderId nm content : List Char)
    (freshId : Nat) : List DriveFile :=
  s ++ [⟨freshId, nm, folderId, false, content⟩]

/-- Number of live files with the given name in the folder. -/
def countByName (s : List DriveFile) (folderId nm : List Char) : Nat :=
  (driveQuery s folderId nm).length

/-- A sample product used by concrete witnesses. -/
def sampleProduct : Product := ⟨some 1, "b".data, "t".data, none, none, none, "u".data⟩

/-! # Theorems -/

/-! ## C7 — `fetch_products` fallback structure -/

/-- C7: `fetch_products` returns the plain HTTP GET's parsed products if and
only if that fetch raised no exception and parsed at least 10 products; in
every other case (exception, or fewer than 10 items) it returns the
Playwright fallback's result, which may be the empty list. -/
theorem claim_C7_fetch_products_fallback :
    (∀ (items pw : List Product), 10 ≤ items.length →
      fetch_products (.ok items) pw = items) ∧
    (∀ (items pw : List Product), items.length < 10 →
      fetch_products (.ok items) pw = pw) ∧
    (∀ (e : List Char) (pw : List Product), fetch_products (.error e) pw = pw) ∧
    fetch_products (.error "boom".data) [] = [] := by
  refine ⟨?_, ?_, fun e pw => rfl, rfl⟩
  · intro items pw h
    show (if 10 ≤ items.length then items else pw) = items
    rw [if_pos h]
  · intro items pw h
    show (if 10 ≤ items.length then items else pw) = pw
    rw [if_neg (by omega)]

/-- Witness for C7 at concrete inputs. -/
theorem claim_C7_witness :
    10 ≤ (List.replicate 10 sampleProduct).length ∧
    fetch_products (.ok (List.replicate 10 sampleProduct)) [] = List.replicate 10 sampleProduct ∧
    (List.replicate 3 sampleProduct).length < 10 ∧
    fetch_products (.ok (List.replicate 3 sampleProduct)) [sampleProduct] = [sampleProduct] :=
  ⟨by simp, claim_C7_fetch_products_fallback.1 _ _ (by simp),
   by simp, claim_C7_fetch_products_fallback.2.1 _ _ (by simp)⟩

/-! ## C8 — Drive upload: create-or-update vs always-create -/

/-- C8 counterexample: `upload_to_drive` from gdrive_upload.py never queries
for an existing file, so uploading the same name twice into the same folder
leaves two live files with that name. -/
theorem claim_C8_counterexample :
    countByName
      (upload_to_drive
        (upload_to_drive [] "F".data "n".data "c1".data 1) "F".data "n".data "c2".data 2)
      "F".data "n".data = 2 := by decide

/-- C8 amended: app.py's `drive_upload_csv` is create-or-update — after an
upload exactly `max(previous count, 1)` live files carry the name, so a
second upload of the same name never adds a file; gdrive_upload.py's
`upload_to_drive` always creates, increasing the count by one. -/
theorem claim_C8_create_or_update :
    (∀ s folderId nm content freshId,
      countByName (drive_upload_csv s folderId nm content freshId) folderId nm =
        max (countByName s folderId nm) 1) ∧
    (∀ s folderId nm content freshId,
      countByName (upload_to_drive s folderId nm content freshId) folderId nm =
        countByName s folderId nm + 1) := by
  constructor
  · intro s folderId nm content freshId
    unfold drive_upload_csv
    cases h : (driveQuery s folderId nm).head? with
    | none =>
      have h0 : driveQuery s folderId nm = [] := by
        cases hq : driveQuery s folderId nm with
        | nil => rfl
        | cons a l => rw [hq] at h; exact absurd h (by simp)
      have hc : countByName s folderId nm = 0 := by
        unfold countByName; rw [h0]; rfl
      rw [hc]
      unfold countByName driveQuery
      rw [List.filter_append]
      have : List.filter
          (fun f => f.name == nm && f.parent == folderId && !f.trashed)
          [(⟨freshId, nm, folderId, false, content⟩ : DriveFile)] =
          [⟨freshId, nm, folderId, false, content⟩] := by simp
      rw [this]
      have h0' : List.filter (fun f => f.name == nm && f.parent == folderId && !f.trashed) s
          = [] := h0
      rw [h0']
      rfl
    | some f =>
      have hmem : f ∈ driveQuery s folderId nm := by
        cases hq : driveQuery s folderId nm with
        | nil => rw [hq] at h; exact absurd h (by simp)
        | cons a l =>
          rw [hq] at h
          simp at h
          exact h ▸ List.mem_cons_self a l
      have hpos : 1 ≤ countByName s folderId nm := by
        unfold countByName
        exact List.length_pos_of_mem hmem
      have hmax : max (countByName s folderId nm) 1 = countByName s folderId nm :=
        Nat.max_eq_left hpos
      rw [hmax]
      unfold countByName driveQuery
      show (List.filter (fun f => f.name == nm && f.parent == folderId && !f.trashed)
          (s.map fun g =>
            if g.fileId = f.fileId then ⟨g.fileId, g.name, g.parent, g.trashed, content⟩
            else g)).length =
        (List.filter (fun f => f.name == nm && f.parent == folderId && !f.trashed) s).length
      rw [← List.countP_eq_length_filter, ← List.countP_eq_length_filter, List.countP_map]
      have hfun : ((fun f : DriveFile => f.name == nm && f.parent == folderId && !f.trashed) ∘
          fun g => if g.fileId = f.fileId then ⟨g.fileId, g.name, g.parent, g.trashed, content⟩
            else g) =
          fun g : DriveFile => g.name == nm && g.parent == folderId && !g.trashed := by
        funext g
        show ((fun f : DriveFile => f.name == nm && f.parent == folderId && !f.trashed)
            (if g.fileId = f.fileId then ⟨g.fileId, g.name, g.parent, g.trashed, content⟩
             else g)) =
          (g.name == nm && g.parent == folderId && !g.trashed)
        by_cases hg : g.fileId = f.fileId
        · rw [if_pos hg]
        · rw [if_neg hg]
      rw [hfun]
  · intro s folderId nm content freshId
    unfold countByName driveQuery upload_to_drive
    rw [List.filter_append]
    simp

/-! ## C6 — Slack posting -/

/-- C6 counterexample: `post_slack` in slack_notify.py calls
`resp.raise_for_status()`, so a 500 response raises to the caller instead of
returning normally. -/
theorem claim_C6_counterexample :
    post_slack "https://hooks.example/x".data 500 = .error 500 := rfl

/-- C6 amended: app.py's `slack_post` and main.py's notify step return
normally on every webhook response (logging failures, printing or skipping
without a URL), but slack_notify.py's `post_slack` re-raises: it returns an
HTTPError (`Except.error`) exactly on 4xx/5xx statuses. -/
theorem claim_C6_posting_behaviour :
    (∀ status, slack_post none status = .printedMessage) ∧
    (∀ w status, truthyOpt w → 300 ≤ status → slack_post w status = .postedLoggedFailure) ∧
    (∀ w status, truthyOpt w → status < 300 → slack_post w status = .posted) ∧
    (∀ result, run_notify [] result = .skippedNotice) ∧
    (∀ w n, ¬ w = [] → run_notify w (.ok n) = .posted) ∧
    (∀ w e, ¬ w = [] → run_notify w (.error e) = .postedLoggedFailure) ∧
    (∀ status, post_slack [] status = .ok .printedMessage) ∧
    (∀ w status, ¬ w = [] → 400 ≤ status → status < 600 →
      post_slack w status = .error status) ∧
    (∀ w status, ¬ w = [] → status < 400 → post_slack w status = .ok .posted) ∧
    (∀ w status, ¬ w = [] → 600 ≤ status → post_slack w status = .ok .posted) := by
  refine ⟨fun status => rfl, ?_, ?_, fun result => rfl, ?_, ?_, fun status => rfl,
    ?_, ?_, ?_⟩
  · intro w status hw hs
    unfold slack_post
    rw [hw]
    simp only [Bool.not_true, Bool.false_eq_true, if_false]
    rw [if_pos hs]
  · intro w status hw hs
    unfold slack_post
    rw [hw]
    simp only [Bool.not_true, Bool.false_eq_true, if_false]
    rw [if_neg (by omega)]
  · intro w n hw
    unfold run_notify
    rw [if_neg (by simpa using hw)]
  · intro w e hw
    unfold run_notify
    rw [if_neg (by simpa using hw)]
  · intro w status hw h4 h6
    unfold post_slack raise_for_status
    rw [if_neg (by simpa using hw), if_pos (by simp; omega)]
  · intro w status hw h4
    unfold post_slack raise_for_status
    rw [if_neg (by simpa using hw), if_neg (by simp; omega)]
  · intro w status hw h6
    unfold post_slack raise_for_status
    rw [if_neg (by simpa using hw), if_neg (by simp; omega)]

/-- Witness for C6 at concrete inputs. -/
theorem claim_C6_witness :
    truthyOpt (some "https://hooks.example/x".data) = true ∧ (300 : Nat) ≤ 500 ∧
    slack_post (some "https://hooks.example/x".data) 500 = .postedLoggedFailure ∧
    ¬ "https://hooks.example/x".data = ([] : List Char) ∧
    post_slack "https://hooks.example/x".data 404 = .error 404 :=
  ⟨by decide, by decide,
   claim_C6_posting_behaviour.2.1 _ _ (by decide) (by decide),
   by decide,
   claim_C6_posting_behaviour.2.2.2.2.2.2.2.1 _ _ (by decide) (by decide) (by decide)⟩

/-! ## C9 / C10 — price-parser totality and discount signs -/

lemma parse_eq_mk (t : List Char) :
    parse_prices_and_discount t = mkParseResult (value_price_of t) (amountsOf t) := rfl

lemma firstNumberFrom_nonneg :
    ∀ (fuel : Nat) (s : List Char) (q : ℚ), firstNumberFrom fuel s = some q → 0 ≤ q := by
  intro fuel
  induction fuel with
  | zero =>
    intro s q h
    cases s <;> simp [firstNumberFrom] at h
  | succ n ih =>
    intro s q h
    cases s with
    | nil => simp [firstNumberFrom] at h
    | cons c rest =>
      unfold firstNumberFrom at h
      by_cases hc : isDigitC c
      · rw [if_pos hc] at h
        split at h
        · split at h
          · simp only [Option.some.injEq] at h
            subst h
            positivity
          · simp only [Option.some.injEq] at h
            subst h
            positivity
        · simp only [Option.some.injEq] at h
          subst h
          positivity
      · rw [if_neg hc] at h
        exact ih rest q h

/-- C9: `parse_prices_and_discount` is total on strings: the result always
carries exactly the five fields of `ParseResult`; `has_value_price` always
mirrors `value_price_usd`; the current and (fixed-up) original price are
`none` together; and the empty string yields the all-empty dictionary. -/
theorem claim_C9_parse_total :
    (∀ t, (parse_prices_and_discount t).has_value_price =
      ((parse_prices_and_discount t).value_price_usd).isSome) ∧
    (∀ t, (parse_prices_and_discount t).price_current_usd = none ↔
      (parse_prices_and_discount t).price_original_usd = none) ∧
    parse_prices_and_discount [] = ⟨none, none, none, none, false⟩ := by
  refine ⟨fun t => ?_, fun t => ?_, by decide⟩
  · rw [parse_eq_mk]
    generalize value_price_of t = vp
    rfl
  rw [parse_eq_mk]
  generalize value_price_of t = vp
  generalize amountsOf t = am
  rcases vp with _ | v <;> rcases am with _ | ⟨a, _ | ⟨b, r⟩⟩ <;>
    simp [mkParseResult, currentOriginal, pyListMin, pyListMax]


/-- C10 counterexample: `_calc_discount(249.99, 250.00)` passes the guard
(the sale price is strictly below the original) yet the rounded discount is
exactly 0, which is not a positive value. -/
theorem claim_C10_counterexample :
    calc_discount (some (24999 / 100 : ℚ)) (some 250) = some 0 ∧
    (24999 / 100 : ℚ) < 250 := by
  constructor
  · simp only [calc_discount]
    rw [if_pos (by norm_num)]
    unfold roundTo2
    rw [show ((250 : ℚ) - 24999 / 100) / 250 * 100 * 100 = 2 / 5 by norm_num]
    rw [round_eq, show (2 : ℚ) / 5 + 1 / 2 = 9 / 10 by norm_num]
    rw [show ⌊(9 : ℚ) / 10⌋ = 0 from Int.floor_eq_zero_iff.mpr (by
      rw [Set.mem_Ico]
      constructor <;> norm_num)]
    norm_num
  · norm_num

/-- C10 amended: `parse_prices_and_discount` returns a `discount_rate_pct`
that is `none` or ≥ 0 (clamped at 0); `extract_percent_floor` returns `none`
or a non-negative integer; and `_calc_discount` returns `none` or a
non-negative — not always positive — value, returning `none` whenever the
sale price is not strictly below the original. -/
theorem claim_C10_discounts_nonneg :
    (∀ t d, (parse_prices_and_discount t).discount_rate_pct = some d → 0 ≤ d) ∧
    (∀ o s txt n, extract_percent_floor o s txt = some n → 0 ≤ n) ∧
    (∀ s o d, calc_discount s o = some d → 0 ≤ d) ∧
    (∀ s o : ℚ, ¬ s < o → calc_discount (some s) (some o) = none) := by
  refine ⟨?_, ?_, ?_, ?_⟩
  · intro t d h
    rw [parse_eq_mk] at h
    generalize value_price_of t = vp at h
    generalize amountsOf t = am at h
    have h' : discountOf (currentOriginal vp am).1 (currentOriginal vp am).2 = some d := h
    unfold discountOf at h'
    split at h'
    · split at h'
      · simp only [Option.some.injEq] at h'
        subst h'
        exact le_max_right _ _
      · exact absurd h' (by simp)
    · exact absurd h' (by simp)
  · intro o s txt n h
    unfold extract_percent_floor at h
    split at h
    · rename_i n0 heq
      simp only [Option.some.injEq] at h
      subst h
      have hn0 : 0 ≤ n0 := by
        rcases txt with _ | txt
        · simp at heq
        · have heq2 : (if txt.isEmpty = true then none else to_float txt) = some n0 := heq
          split at heq2
          · simp at heq2
          · exact firstNumberFrom_nonneg txt.length txt n0 heq2
      exact Int.floor_nonneg.mpr hn0
    · split at h
      · split at h
        · simp only [Option.some.injEq] at h
          subst h
          exact le_max_left _ _
        · exact absurd h (by simp)
      · exact absurd h (by simp)
  · intro s o d h
    unfold calc_discount at h
    split at h
    · rename_i sv ov
      split at h
      · rename_i hcond
        simp only [Option.some.injEq] at h
        subst h
        obtain ⟨h1, h2, h3, h4⟩ := hcond
        unfold roundTo2
        have hr : (0 : ℤ) ≤ round ((ov - sv) / ov * 100 * 100) := by
          rw [round_eq]
          apply Int.floor_nonneg.mpr
          have hx : 0 ≤ (ov - sv) / ov * 100 := by
            apply mul_nonneg _ (by norm_num)
            apply div_nonneg _ (le_of_lt h3)
            linarith
          nlinarith
        positivity
      · exact absurd h (by simp)
    · exact absurd h (by simp)
  · intro s o hlt
    show (if s ≠ 0 ∧ o ≠ 0 ∧ 0 < o ∧ s ≤ o - 1 / 1000000 then
        some (roundTo2 ((o - s) / o * 100)) else none) = none
    rw [if_neg]
    rintro ⟨h1, h2, h3, h4⟩
    exact hlt (lt_of_le_of_lt h4 (by linarith))

/-- Witness for C10 at concrete inputs. -/
theorem claim_C10_witness :
    ¬ (5 : ℚ) < 5 ∧ calc_discount (some 5) (some 5) = none ∧
    calc_discount (some 2) (some 4) = some 50 ∧ (0 : ℚ) ≤ 50 := by
  have h24 : calc_discount (some 2) (some 4) = some 50 := by
    simp only [calc_discount]
    rw [if_pos (by norm_num)]
    unfold roundTo2
    rw [show ((4 : ℚ) - 2) / 4 * 100 * 100 = ((5000 : ℤ) : ℚ) by norm_num, round_intCast]
    norm_num
  exact ⟨by norm_num, claim_C10_discounts_nonneg.2.2.2 5 5 (by norm_num), h24,
    claim_C10_discounts_nonneg.2.2.1 (some 2) (some 4) 50 h24⟩

/-! ## C3 — `parse_prices_and_discount` case analysis -/

/-- C3: on every input the parser works on the noise-stripped text; the
collected amounts (currency-prefixed first, plain decimals as the fallback
tier) all lie in [0.5, 500] USD; and the price selection is: Value present
(in range) with at least one amount → (first amount, Value); else ≥ 2
amounts → (min, max); exactly one amount → that amount twice; no amounts →
both `none`. -/
theorem claim_C3_parse_cases (t : List Char) :
    (∀ v ∈ amountsOf t, 50 ≤ v ∧ v ≤ 50000) ∧
    ((value_price_of t).isSome ∧ amountsOf t ≠ [] →
      (parse_prices_and_discount t).price_current_usd = (amountsOf t).head? ∧
      (parse_prices_and_discount t).price_original_usd = value_price_of t) ∧
    (value_price_of t = none ∧ 2 ≤ (amountsOf t).length →
      (parse_prices_and_discount t).price_current_usd = pyListMin (amountsOf t) ∧
      (parse_prices_and_discount t).price_original_usd = pyListMax (amountsOf t)) ∧
    (value_price_of t = none ∧ (amountsOf t).length = 1 →
      (parse_prices_and_discount t).price_current_usd = (amountsOf t).head? ∧
      (parse_prices_and_discount t).price_original_usd = (amountsOf t).head?) ∧
    (amountsOf t = [] →
      (parse_prices_and_discount t).price_current_usd = none ∧
      (parse_prices_and_discount t).price_original_usd = none) := by
  have hfilter : ∀ v ∈ amountsOf t, 50 ≤ v ∧ v ≤ 50000 := by
    intro v hv
    have hv' : v ∈ (findCurrAmounts (rawOf t) ++ findPlainAmounts (rawOf t)).filter
        (fun v => 50 ≤ v && v ≤ 50000) := hv
    rw [List.mem_filter] at hv'
    have h2 := hv'.2
    simp only [Bool.and_eq_true, decide_eq_true_eq] at h2
    exact h2
  refine ⟨hfilter, ?_, ?_, ?_, ?_⟩ <;> rw [parse_eq_mk] <;>
    generalize value_price_of t = vp <;> generalize amountsOf t = am
  · rintro ⟨hv, hne⟩
    rcases vp with _ | v
    · simp at hv
    rcases am with _ | ⟨a, l⟩
    · simp at hne
    simp [mkParseResult, currentOriginal]
  · rintro ⟨hv, hlen⟩
    subst hv
    rcases am with _ | ⟨a, _ | ⟨b, r⟩⟩
    · simp at hlen
    · simp at hlen
    · simp [mkParseResult, currentOriginal, pyListMin, pyListMax]
  · rintro ⟨hv, hlen⟩
    subst hv
    rcases am with _ | ⟨a, _ | ⟨b, r⟩⟩
    · simp at hlen
    · simp [mkParseResult, currentOriginal]
    · simp at hlen
  · rintro rfl
    rcases vp with _ | v <;> simp [mkParseResult, currentOriginal]

/-- Witness for C3 at two concrete inputs, one per main branch. -/
theorem claim_C3_witness :
    ((value_price_of "Value: US$20.00 now US$15.00".data).isSome ∧
      amountsOf "Value: US$20.00 now US$15.00".data ≠ []) ∧
    (parse_prices_and_discount "Value: US$20.00 now US$15.00".data).price_current_usd =
      some 2000 ∧
    (parse_prices_and_discount "Value: US$20.00 now US$15.00".data).price_original_usd =
      some 2000 ∧
    (value_price_of "US$12.34 US$10.00".data = none ∧
      2 ≤ (amountsOf "US$12.34 US$10.00".data).length) ∧
    (parse_prices_and_discount "US$12.34 US$10.00".data).price_current_usd = some 1000 ∧
    (parse_prices_and_discount "US$12.34 US$10.00".data).price_original_usd = some 1234 := by
  have h1 := (claim_C3_parse_cases "Value: US$20.00 now US$15.00".data).2.1
    (by constructor
        · decide
        · decide)
  have h2 := (claim_C3_parse_cases "US$12.34 US$10.00".data).2.2.1
    (by constructor
        · decide
        · decide)
  refine ⟨⟨by decide, by decide⟩, ?_, ?_, ⟨by decide, by decide⟩, ?_, ?_⟩
  · rw [h1.1]
    decide
  · rw [h1.2]
    decide
  · rw [h2.1]
    decide
  · rw [h2.2]
    decide

/-! ## C1 / C2 — merge membership lemmas -/

lemma mem_mergeRowsFor {rt : RowS} {p : List RowS} {x : Option RowS × Option RowS} :
    x ∈ mergeRowsFor rt p ↔
      (x = (some rt, none) ∧ ∀ rp ∈ p, ¬ rp.product_url = rt.product_url) ∨
      (∃ rp, rp ∈ p ∧ rp.product_url = rt.product_url ∧ x = (some rt, some rp)) := by
  unfold mergeRowsFor
  by_cases he : (p.filter fun rp => rp.product_url == rt.product_url).isEmpty
  · rw [if_pos he]
    have hnil : (p.filter fun rp => rp.product_url == rt.product_url) = [] := by
      simpa [List.isEmpty_iff] using he
    have hall : ∀ rp ∈ p, ¬ rp.product_url = rt.product_url := by
      intro rp hrp
      have := List.filter_eq_nil_iff.mp hnil rp hrp
      simpa using this
    constructor
    · intro hx
      exact Or.inl ⟨by simpa using hx, hall⟩
    · rintro (⟨hx, _⟩ | ⟨rp, hrp, hurl, hx⟩)
      · simp [hx]
      · exact absurd hurl (hall rp hrp)
  · rw [if_neg he]
    constructor
    · intro hx
      rw [List.mem_map] at hx
      obtain ⟨rp, hrp, hx⟩ := hx
      rw [List.mem_filter] at hrp
      exact Or.inr ⟨rp, hrp.1, by simpa using hrp.2, hx.symm⟩
    · rintro (⟨hx, hall⟩ | ⟨rp, hrp, hurl, hx⟩)
      · exfalso
        rw [List.isEmpty_iff] at he
        obtain ⟨rp, hrp⟩ := List.exists_mem_of_ne_nil _ he
        rw [List.mem_filter] at hrp
        exact hall rp hrp.1 (by simpa using hrp.2)
      · rw [List.mem_map]
        exact ⟨rp, List.mem_filter.mpr ⟨hrp, by simpa using hurl⟩, hx.symm⟩

lemma mem_outerMerge_some_some {t p : List RowS} {rt rp : RowS} :
    (some rt, some rp) ∈ outerMergeByUrl t p ↔
      rt ∈ t ∧ rp ∈ p ∧ rp.product_url = rt.product_url := by
  unfold outerMergeByUrl
  rw [List.mem_append]
  constructor
  · rintro (h | h)
    · rw [List.mem_flatMap] at h
      obtain ⟨rt', hrt', hx⟩ := h
      rcases mem_mergeRowsFor.mp hx with ⟨hx, _⟩ | ⟨rp', hrp', hurl, hx⟩
      · simp at hx
      · have h1 : (some rt : Option RowS) = some rt' := congrArg Prod.fst hx
        have h2 : (some rp : Option RowS) = some rp' := congrArg Prod.snd hx
        obtain rfl := Option.some.inj h1
        obtain rfl := Option.some.inj h2
        exact ⟨hrt', hrp', hurl⟩
    · rw [List.mem_map] at h
      obtain ⟨rp', _, hx⟩ := h
      exact absurd (congrArg Prod.fst hx) (by simp)
  · rintro ⟨hrt, hrp, hurl⟩
    left
    rw [List.mem_flatMap]
    exact ⟨rt, hrt, mem_mergeRowsFor.mpr (Or.inr ⟨rp, hrp, hurl, rfl⟩)⟩

lemma mem_outerMerge_some_none {t p : List RowS} {rt : RowS} :
    (some rt, (none : Option RowS)) ∈ outerMergeByUrl t p ↔
      rt ∈ t ∧ ∀ rp ∈ p, ¬ rp.product_url = rt.product_url := by
  unfold outerMergeByUrl
  rw [List.mem_append]
  constructor
  · rintro (h | h)
    · rw [List.mem_flatMap] at h
      obtain ⟨rt', hrt', hx⟩ := h
      rcases mem_mergeRowsFor.mp hx with ⟨hx, hall⟩ | ⟨rp', _, _, hx⟩
      · obtain rfl : rt = rt' := Option.some.inj (congrArg Prod.fst hx)
        exact ⟨hrt', hall⟩
      · exact absurd (congrArg Prod.snd hx) (by simp)
    · rw [List.mem_map] at h
      obtain ⟨rp', _, hx⟩ := h
      exact absurd (congrArg Prod.fst hx) (by simp)
  · rintro ⟨hrt, hall⟩
    left
    rw [List.mem_flatMap]
    exact ⟨rt, hrt, mem_mergeRowsFor.mpr (Or.inl ⟨rfl, hall⟩)⟩

lemma mem_outerMerge_none_some {t p : List RowS} {rp : RowS} :
    ((none : Option RowS), some rp) ∈ outerMergeByUrl t p ↔
      rp ∈ p ∧ ∀ rt ∈ t, ¬ rt.product_url = rp.product_url := by
  unfold outerMergeByUrl
  rw [List.mem_append]
  constructor
  · rintro (h | h)
    · rw [List.mem_flatMap] at h
      obtain ⟨rt', hrt', hx⟩ := h
      rcases mem_mergeRowsFor.mp hx with ⟨hx, _⟩ | ⟨rp', _, _, hx⟩
      · exact absurd (congrArg Prod.fst hx) (by simp)
      · exact absurd (congrArg Prod.fst hx) (by simp)
    · rw [List.mem_map] at h
      obtain ⟨rp', hrp', hx⟩ := h
      rw [List.mem_filter] at hrp'
      have h2 : (some rp' : Option RowS) = some rp := congrArg Prod.snd hx
      obtain rfl := Option.some.inj h2
      refine ⟨hrp'.1, ?_⟩
      intro rt hrt
      have := hrp'.2
      rw [List.all_eq_true] at this
      have := this rt hrt
      simpa using this
  · rintro ⟨hrp, hall⟩
    right
    rw [List.mem_map]
    refine ⟨rp, List.mem_filter.mpr ⟨hrp, ?_⟩, rfl⟩
    rw [List.all_eq_true]
    intro rt hrt
    simpa using hall rt hrt

lemma mem_joinRowsFor {rt : RowU} {p : List RowU} {x : RowU × Option RowU} :
    x ∈ joinRowsFor rt p ↔
      (x = (rt, none) ∧ ∀ rp ∈ p, ¬ mergeKeyU rp = mergeKeyU rt) ∨
      (∃ rp, rp ∈ p ∧ mergeKeyU rp = mergeKeyU rt ∧ x = (rt, some rp)) := by
  unfold joinRowsFor
  by_cases he : (p.filter fun rp => mergeKeyU rp == mergeKeyU rt).isEmpty
  · rw [if_pos he]
    have hnil : (p.filter fun rp => mergeKeyU rp == mergeKeyU rt) = [] := by
      simpa [List.isEmpty_iff] using he
    have hall : ∀ rp ∈ p, ¬ mergeKeyU rp = mergeKeyU rt := by
      intro rp hrp
      have := List.filter_eq_nil_iff.mp hnil rp hrp
      simpa using this
    constructor
    · intro hx
      exact Or.inl ⟨by simpa using hx, hall⟩
    · rintro (⟨hx, _⟩ | ⟨rp, hrp, hurl, hx⟩)
      · simp [hx]
      · exact absurd hurl (hall rp hrp)
  · rw [if_neg he]
    constructor
    · intro hx
      rw [List.mem_map] at hx
      obtain ⟨rp, hrp, hx⟩ := hx
      rw [List.mem_filter] at hrp
      exact Or.inr ⟨rp, hrp.1, by simpa using hrp.2, hx.symm⟩
    · rintro (⟨hx, hall⟩ | ⟨rp, hrp, hurl, hx⟩)
      · exfalso
        rw [List.isEmpty_iff] at he
        obtain ⟨rp, hrp⟩ := List.exists_mem_of_ne_nil _ he
        rw [List.mem_filter] at hrp
        exact hall rp hrp.1 (by simpa using hrp.2)
      · rw [List.mem_map]
        exact ⟨rp, List.mem_filter.mpr ⟨hrp, by simpa using hurl⟩, hx.symm⟩

lemma mem_leftJoin_some {t p : List RowU} {rt rp : RowU} :
    (rt, some rp) ∈ leftJoinByKey t p ↔
      rt ∈ t ∧ rp ∈ p ∧ mergeKeyU rp = mergeKeyU rt := by
  unfold leftJoinByKey
  rw [List.mem_flatMap]
  constructor
  · rintro ⟨rt', hrt', hx⟩
    rcases mem_joinRowsFor.mp hx with ⟨hx, _⟩ | ⟨rp', hrp', hkey, hx⟩
    · exact absurd (congrArg Prod.snd hx) (by simp)
    · obtain rfl : rt = rt' := congrArg Prod.fst hx
      have h2 : (some rp : Option RowU) = some rp' := congrArg Prod.snd hx
      obtain rfl := Option.some.inj h2
      exact ⟨hrt', hrp', hkey⟩
  · rintro ⟨hrt, hrp, hkey⟩
    exact ⟨rt, hrt, mem_joinRowsFor.mpr (Or.inr ⟨rp, hrp, hkey, rfl⟩)⟩

/-! ## C1 — product identity across the two days -/

/-- C1 counterexample: `_rank_merge` in utils.py keys rows on the composite
`url||brand||name`, so two rows with equal URL but different brands are not
matched — the merged row keeps `rank_prev` empty. -/
theorem claim_C1_counterexample :
    (⟨some "u".data, some "A".data, some "x".data, 1⟩ : RowU).url =
      (⟨some "u".data, some "B".data, some "x".data, 2⟩ : RowU).url ∧
    rank_merge [⟨some "u".data, some "A".data, some "x".data, 1⟩]
      [⟨some "u".data, some "B".data, some "x".data, 2⟩] = [(1, none)] := by
  constructor
  · rfl
  · decide

/-- C1 amended: slack_notify's `analyze` (and app.py's `build_sections`)
treat two rows as the same product exactly when their URL fields are equal,
but utils.py's `_rank_merge` keys on `url||brand||name`: it matches two rows
exactly when the composite keys are equal, which holds whenever URL, brand
and name all coincide — URL alone does not suffice there. -/
theorem claim_C1_url_key_matching :
    (∀ (t p : List RowS) (rt rp : RowS),
      (some rt, some rp) ∈ outerMergeByUrl t p ↔
        rt ∈ t ∧ rp ∈ p ∧ rp.product_url = rt.product_url) ∧
    (∀ (t p : List RowB) (u : List Char),
      u ∈ bsCommon t p ↔
        u ∈ urlKeys (top30 t) ∧ u ∈ urlKeys (top30 p)) ∧
    (∀ (t p : List RowU) (rt rp : RowU),
      (rt, some rp) ∈ leftJoinByKey t p ↔
        rt ∈ t ∧ rp ∈ p ∧ mergeKeyU rp = mergeKeyU rt) ∧
    (∀ r1 r2 : RowU, r1.url = r2.url → r1.brand = r2.brand → r1.name = r2.name →
      mergeKeyU r1 = mergeKeyU r2) := by
  refine ⟨fun t p rt rp => mem_outerMerge_some_some, ?_, fun t p rt rp => mem_leftJoin_some, ?_⟩
  · intro t p u
    unfold bsCommon
    rw [List.mem_filter]
    constructor
    · rintro ⟨h1, h2⟩
      refine ⟨h1, ?_⟩
      simpa using h2
    · rintro ⟨h1, h2⟩
      refine ⟨h1, ?_⟩
      simpa using h2
  · intro r1 r2 h1 h2 h3
    unfold mergeKeyU
    rw [h1, h2, h3]

/-! ## C2 — the four rank-diff buckets -/

lemma mem_analyzeNew {t p : List RowS} {x : Option RowS × Option RowS} :
    x ∈ analyzeNew t p ↔
      ∃ rt, x = (some rt, none) ∧ rt ∈ t ∧ ∀ rp ∈ p, ¬ rp.product_url = rt.product_url := by
  unfold analyzeNew
  rw [List.mem_filter]
  constructor
  · rintro ⟨hm, hmask⟩
    rcases x with ⟨x1, x2⟩
    rcases x1 with _ | rt
    · simp at hmask
    rcases x2 with _ | rp
    · obtain ⟨h1, h2⟩ := mem_outerMerge_some_none.mp hm
      exact ⟨rt, rfl, h1, h2⟩
    · simp at hmask
  · rintro ⟨rt, rfl, hrt, hall⟩
    exact ⟨mem_outerMerge_some_none.mpr ⟨hrt, hall⟩, by simp⟩

lemma mem_analyzeOut {t p : List RowS} {x : Option RowS × Option RowS} :
    x ∈ analyzeOut t p ↔
      ∃ rp, x = (none, some rp) ∧ rp ∈ p ∧ ∀ rt ∈ t, ¬ rt.product_url = rp.product_url := by
  unfold analyzeOut
  rw [List.mem_filter]
  constructor
  · rintro ⟨hm, hmask⟩
    rcases x with ⟨x1, x2⟩
    rcases x1 with _ | rt
    · rcases x2 with _ | rp
      · simp at hmask
      · obtain ⟨h1, h2⟩ := mem_outerMerge_none_some.mp hm
        exact ⟨rp, rfl, h1, h2⟩
    · simp at hmask
  · rintro ⟨rp, rfl, hrp, hall⟩
    exact ⟨mem_outerMerge_none_some.mpr ⟨hrp, hall⟩, by simp⟩

lemma mem_analyzeUp {riseTh : ℤ} {t p : List RowS} {x : Option RowS × Option RowS} :
    x ∈ analyzeUp riseTh t p ↔
      ∃ rt rp, x = (some rt, some rp) ∧ rt ∈ t ∧ rp ∈ p ∧
        rp.product_url = rt.product_url ∧ riseTh ≤ (rp.rank : ℤ) - (rt.rank : ℤ) := by
  unfold analyzeUp analyzeStay
  rw [List.mem_filter, List.mem_filter]
  constructor
  · rintro ⟨⟨hm, hmask⟩, hth⟩
    rcases x with ⟨x1, x2⟩
    rcases x1 with _ | rt
    · simp at hmask
    rcases x2 with _ | rp
    · simp at hmask
    obtain ⟨h1, h2, h3⟩ := mem_outerMerge_some_some.mp hm
    refine ⟨rt, rp, rfl, h1, h2, h3, ?_⟩
    simpa [deltaOf] using hth
  · rintro ⟨rt, rp, rfl, hrt, hrp, hurl, hth⟩
    exact ⟨⟨mem_outerMerge_some_some.mpr ⟨hrt, hrp, hurl⟩, by simp⟩,
      by simpa [deltaOf] using hth⟩

lemma mem_analyzeDown {dropTh : ℤ} {t p : List RowS} {x : Option RowS × Option RowS} :
    x ∈ analyzeDown dropTh t p ↔
      ∃ rt rp, x = (some rt, some rp) ∧ rt ∈ t ∧ rp ∈ p ∧
        rp.product_url = rt.product_url ∧ (rp.rank : ℤ) - (rt.rank : ℤ) ≤ dropTh := by
  unfold analyzeDown analyzeStay
  rw [List.mem_filter, List.mem_filter]
  constructor
  · rintro ⟨⟨hm, hmask⟩, hth⟩
    rcases x with ⟨x1, x2⟩
    rcases x1 with _ | rt
    · simp at hmask
    rcases x2 with _ | rp
    · simp at hmask
    obtain ⟨h1, h2, h3⟩ := mem_outerMerge_some_some.mp hm
    refine ⟨rt, rp, rfl, h1, h2, h3, ?_⟩
    simpa [deltaOf] using hth
  · rintro ⟨rt, rp, rfl, hrt, hrp, hurl, hth⟩
    exact ⟨⟨mem_outerMerge_some_some.mpr ⟨hrt, hrp, hurl⟩, by simp⟩,
      by simpa [deltaOf] using hth⟩

lemma mem_bsNewKeys {t p : List RowB} {u : List Char} :
    u ∈ bsNewKeys t p ↔ u ∈ urlKeys (top30 t) ∧ ¬ u ∈ urlKeys (top30 p) := by
  unfold bsNewKeys
  rw [List.mem_filter]
  simp

lemma mem_bsOutKeys {t p : List RowB} {u : List Char} :
    u ∈ bsOutKeys t p ↔
      ¬ top30 t = [] ∧ u ∈ urlKeys (top30 p) ∧ ¬ u ∈ urlKeys (top30 t) := by
  unfold bsOutKeys
  by_cases he : (top30 t).isEmpty
  · rw [if_pos he]
    have ht : top30 t = [] := List.isEmpty_iff.mp he
    simp [ht]
  · rw [if_neg he]
    have ht : ¬ top30 t = [] := by simpa [List.isEmpty_iff] using he
    rw [List.mem_filter]
    simp [ht]

lemma mem_bsCommon {t p : List RowB} {u : List Char} :
    u ∈ bsCommon t p ↔ u ∈ urlKeys (top30 t) ∧ u ∈ urlKeys (top30 p) := by
  unfold bsCommon
  rw [List.mem_filter]
  simp

lemma mem_bsRisingKeys {t p : List RowB} {u : List Char} :
    u ∈ bsRisingKeys t p ↔ u ∈ bsCommon t p ∧
      ∃ rt rp, locUrl (top30 t) u = some rt ∧ locUrl (top30 p) u = some rp ∧
        rt.rank < rp.rank := by
  unfold bsRisingKeys
  rw [List.mem_filter]
  constructor
  · rintro ⟨hc, hpred⟩
    refine ⟨hc, ?_⟩
    rcases h1 : locUrl (top30 t) u with _ | rt
    · rw [h1] at hpred
      simp at hpred
    rcases h2 : locUrl (top30 p) u with _ | rp
    · rw [h1, h2] at hpred
      simp at hpred
    rw [h1, h2] at hpred
    simp only [decide_eq_true_eq] at hpred
    exact ⟨rt, rp, rfl, rfl, hpred⟩
  · rintro ⟨hc, rt, rp, h1, h2, hlt⟩
    refine ⟨hc, ?_⟩
    rw [h1, h2]
    simpa using hlt

lemma mem_bsFallingKeys {t p : List RowB} {u : List Char} :
    u ∈ bsFallingKeys t p ↔ u ∈ bsCommon t p ∧
      ∃ rt rp, locUrl (top30 t) u = some rt ∧ locUrl (top30 p) u = some rp ∧
        rp.rank < rt.rank := by
  unfold bsFallingKeys
  rw [List.mem_filter]
  constructor
  · rintro ⟨hc, hpred⟩
    refine ⟨hc, ?_⟩
    rcases h1 : locUrl (top30 t) u with _ | rt
    · rw [h1] at hpred
      simp at hpred
    rcases h2 : locUrl (top30 p) u with _ | rp
    · rw [h1, h2] at hpred
      simp at hpred
    rw [h1, h2] at hpred
    simp only [decide_eq_true_eq] at hpred
    exact ⟨rt, rp, rfl, rfl, hpred⟩
  · rintro ⟨hc, rt, rp, h1, h2, hlt⟩
    refine ⟨hc, ?_⟩
    rw [h1, h2]
    simpa using hlt

/-- C2 counterexample: a product that is present on both days and whose rank
number decreased (5 → 4) is nevertheless not bucketed as risen by
slack_notify's `analyze`, whose rise bucket demands `delta >= RISE_TH` (30 by
default). -/
theorem claim_C2_counterexample :
    outerMergeByUrl [⟨"u".data, 4, "b".data, "n".data⟩] [⟨"u".data, 5, "b".data, "n".data⟩] =
      [(some ⟨"u".data, 4, "b".data, "n".data⟩, some ⟨"u".data, 5, "b".data, "n".data⟩)] ∧
    (4 : ℕ) < 5 ∧
    analyzeUp RISE_TH [⟨"u".data, 4, "b".data, "n".data⟩]
      [⟨"u".data, 5, "b".data, "n".data⟩] = [] := by
  refine ⟨by decide, by decide, by decide⟩

/-- C2 amended: in slack_notify's `analyze` (full snapshots) a product is
bucketed new/out exactly by presence, but risen/fallen only when the rank
moved by at least the thresholds RISE_TH = 30 / DROP_TH = -30; in app.py's
`build_sections` the buckets are computed within each day's top-30 rows
(with an early return bucketing nothing — in particular nothing as out —
when today's top 30 is empty) and there risen/fallen do mean any strict
rank decrease/increase; in both models the four buckets are pairwise
disjoint. -/
theorem claim_C2_rank_buckets :
    (∀ (t p : List RowS) (x : Option RowS × Option RowS),
      x ∈ analyzeNew t p ↔
        ∃ rt, x = (some rt, none) ∧ rt ∈ t ∧ ∀ rp ∈ p, ¬ rp.product_url = rt.product_url) ∧
    (∀ (t p : List RowS) (x : Option RowS × Option RowS),
      x ∈ analyzeOut t p ↔
        ∃ rp, x = (none, some rp) ∧ rp ∈ p ∧ ∀ rt ∈ t, ¬ rt.product_url = rp.product_url) ∧
    (∀ (t p : List RowS) (x : Option RowS × Option RowS),
      x ∈ analyzeUp RISE_TH t p ↔
        ∃ rt rp, x = (some rt, some rp) ∧ rt ∈ t ∧ rp ∈ p ∧
          rp.product_url = rt.product_url ∧ RISE_TH ≤ (rp.rank : ℤ) - (rt.rank : ℤ)) ∧
    (∀ (t p : List RowS) (x : Option RowS × Option RowS),
      x ∈ analyzeDown DROP_TH t p ↔
        ∃ rt rp, x = (some rt, some rp) ∧ rt ∈ t ∧ rp ∈ p ∧
          rp.product_url = rt.product_url ∧ (rp.rank : ℤ) - (rt.rank : ℤ) ≤ DROP_TH) ∧
    (∀ (t p : List RowS) (x : Option RowS × Option RowS),
      x ∈ analyzeNew t p →
        ¬ x ∈ analyzeOut t p ∧ ¬ x ∈ analyzeUp RISE_TH t p ∧
          ¬ x ∈ analyzeDown DROP_TH t p) ∧
    (∀ (t p : List RowS) (x : Option RowS × Option RowS),
      x ∈ analyzeOut t p →
        ¬ x ∈ analyzeUp RISE_TH t p ∧ ¬ x ∈ analyzeDown DROP_TH t p) ∧
    (∀ (t p : List RowS) (x : Option RowS × Option RowS),
      x ∈ analyzeUp RISE_TH t p → ¬ x ∈ analyzeDown DROP_TH t p) ∧
    (∀ (t p : List RowB) (u : List Char),
      u ∈ bsNewKeys t p ↔ u ∈ urlKeys (top30 t) ∧ ¬ u ∈ urlKeys (top30 p)) ∧
    (∀ (t p : List RowB) (u : List Char),
      u ∈ bsOutKeys t p ↔
        ¬ top30 t = [] ∧ u ∈ urlKeys (top30 p) ∧ ¬ u ∈ urlKeys (top30 t)) ∧
    (∀ (t p : List RowB) (u : List Char),
      u ∈ bsRisingKeys t p ↔ u ∈ bsCommon t p ∧
        ∃ rt rp, locUrl (top30 t) u = some rt ∧ locUrl (top30 p) u = some rp ∧
          rt.rank < rp.rank) ∧
    (∀ (t p : List RowB) (u : List Char),
      u ∈ bsFallingKeys t p ↔ u ∈ bsCommon t p ∧
        ∃ rt rp, locUrl (top30 t) u = some rt ∧ locUrl (top30 p) u = some rp ∧
          rp.rank < rt.rank) ∧
    (∀ (t p : List RowB) (u : List Char),
      u ∈ bsNewKeys t p →
        ¬ u ∈ bsOutKeys t p ∧ ¬ u ∈ bsRisingKeys t p ∧ ¬ u ∈ bsFallingKeys t p) ∧
    (∀ (t p : List RowB) (u : List Char),
      u ∈ bsOutKeys t p → ¬ u ∈ bsRisingKeys t p ∧ ¬ u ∈ bsFallingKeys t p) ∧
    (∀ (t p : List RowB) (u : List Char),
      u ∈ bsRisingKeys t p → ¬ u ∈ bsFallingKeys t p) := by
  refine ⟨fun t p x => mem_analyzeNew, fun t p x => mem_analyzeOut,
    fun t p x => mem_analyzeUp, fun t p x => mem_analyzeDown,
    ?_, ?_, ?_,
    fun t p u => mem_bsNewKeys, fun t p u => mem_bsOutKeys,
    fun t p u => mem_bsRisingKeys, fun t p u => mem_bsFallingKeys,
    ?_, ?_, ?_⟩
  · intro t p x hx
    obtain ⟨rt, rfl, _, _⟩ := mem_analyzeNew.mp hx
    refine ⟨?_, ?_, ?_⟩
    · intro h
      obtain ⟨rp, heq, _, _⟩ := mem_analyzeOut.mp h
      exact absurd (congrArg Prod.fst heq) (by simp)
    · intro h
      obtain ⟨rt', rp', heq, _⟩ := mem_analyzeUp.mp h
      exact absurd (congrArg Prod.snd heq) (by simp)
    · intro h
      obtain ⟨rt', rp', heq, _⟩ := mem_analyzeDown.mp h
      exact absurd (congrArg Prod.snd heq) (by simp)
  · intro t p x hx
    obtain ⟨rp, rfl, _, _⟩ := mem_analyzeOut.mp hx
    constructor
    · intro h
      obtain ⟨rt', rp', heq, _⟩ := mem_analyzeUp.mp h
      exact absurd (congrArg Prod.fst heq) (by simp)
    · intro h
      obtain ⟨rt', rp', heq, _⟩ := mem_analyzeDown.mp h
      exact absurd (congrArg Prod.fst heq) (by simp)
  · intro t p x hx h
    obtain ⟨rt, rp, rfl, _, _, _, hup⟩ := mem_analyzeUp.mp hx
    obtain ⟨rt', rp', heq, _, _, _, hdown⟩ := mem_analyzeDown.mp h
    have h1 : (some rt : Option RowS) = some rt' := congrArg Prod.fst heq
    have h2 : (some rp : Option RowS) = some rp' := congrArg Prod.snd heq
    obtain rfl := Option.some.inj h1
    obtain rfl := Option.some.inj h2
    unfold RISE_TH at hup
    unfold DROP_TH at hdown
    omega
  · intro t p u hu
    obtain ⟨h1, h2⟩ := mem_bsNewKeys.mp hu
    refine ⟨?_, ?_, ?_⟩
    · intro h
      exact h2 (mem_bsOutKeys.mp h).2.1
    · intro h
      exact h2 (mem_bsCommon.mp (mem_bsRisingKeys.mp h).1).2
    · intro h
      exact h2 (mem_bsCommon.mp (mem_bsFallingKeys.mp h).1).2
  · intro t p u hu
    obtain ⟨hne, h1, h2⟩ := mem_bsOutKeys.mp hu
    constructor
    · intro h
      exact h2 (mem_bsCommon.mp (mem_bsRisingKeys.mp h).1).1
    · intro h
      exact h2 (mem_bsCommon.mp (mem_bsFallingKeys.mp h).1).1
  · intro t p u hu h
    obtain ⟨_, rt, rp, ht, hp, hlt⟩ := mem_bsRisingKeys.mp hu
    obtain ⟨_, rt', rp', ht', hp', hlt'⟩ := mem_bsFallingKeys.mp h
    obtain rfl := Option.some.inj (ht.symm.trans ht')
    obtain rfl := Option.some.inj (hp.symm.trans hp')
    omega

/-- Witness for C2's bucket characterisations at a concrete merged pair. -/
theorem claim_C2_witness :
    (some (⟨"u".data, 2, "b".data, "n".data⟩ : RowS), (none : Option RowS)) ∈
      analyzeNew [⟨"u".data, 2, "b".data, "n".data⟩] [⟨"v".data, 9, "b".data, "n".data⟩] ∧
    ¬ (some (⟨"u".data, 2, "b".data, "n".data⟩ : RowS), (none : Option RowS)) ∈
      analyzeOut [⟨"u".data, 2, "b".data, "n".data⟩] [⟨"v".data, 9, "b".data, "n".data⟩] := by
  have hnew : (some (⟨"u".data, 2, "b".data, "n".data⟩ : RowS), (none : Option RowS)) ∈
      analyzeNew [⟨"u".data, 2, "b".data, "n".data⟩] [⟨"v".data, 9, "b".data, "n".data⟩] := by
    decide
  exact ⟨hnew, (claim_C2_rank_buckets.2.2.2.2.1 _ _ _ hnew).1⟩

/-! ## C4 — ordering of the rising and falling lists -/

lemma entryLE_iff_claimMoveOrder (a b : MoveEntry) : entryLE a b ↔ claimMoveOrder a b := by
  unfold entryLE entryKey claimMoveOrder
  simp only [Prod.Lex.le_iff, ofLex_toLex, neg_lt_neg_iff, neg_inj]

/-- C4: the rising list of `build_sections` is ordered by rank improvement
descending with ties broken by today's rank, then previous rank, then the
product name; the falling list is ordered by rank drop descending with the
same tie-break sequence. -/
theorem claim_C4_move_lists_sorted (t p : List RowB) :
    List.Sorted claimMoveOrder (bsRising t p) ∧
    List.Sorted claimMoveOrder (bsFalling t p) := by
  constructor <;>
  · apply List.Pairwise.sublist (List.take_sublist _ _)
    exact List.Pairwise.imp (fun h => (entryLE_iff_claimMoveOrder _ _).mp h)
      (List.sorted_insertionSort entryLE _)

/-! ## C5 — which snapshot is diffed against today's data -/

lemma getLast?_mem {α : Type} : ∀ {l : List α} {y : α}, l.getLast? = some y → y ∈ l := by
  intro l
  induction l with
  | nil => intro y hy; simp at hy
  | cons a rest ih =>
    intro y hy
    rcases rest with _ | ⟨b, r2⟩
    · simp at hy
      simp [hy]
    · rw [List.getLast?_cons_cons] at hy
      exact List.mem_cons_of_mem a (ih hy)

lemma le_getLast_of_sorted :
    ∀ {l : List (List Char)}, l.Sorted (· ≤ ·) →
      ∀ {x}, x ∈ l → ∀ {y}, l.getLast? = some y → x ≤ y := by
  intro l
  induction l with
  | nil => intro _ x hx; simp at hx
  | cons a rest ih =>
    intro hs x hx y hy
    rcases rest with _ | ⟨b, r2⟩
    · simp at hx hy
      rw [hx, hy]
    · rw [List.getLast?_cons_cons] at hy
      rcases List.mem_cons.mp hx with rfl | hx2
      · exact (List.sorted_cons.mp hs).1 y (getLast?_mem hy)
      · exact ih (List.sorted_cons.mp hs).2 hx2 hy

/-- C5 counterexample: with snapshots for Jan 1 and Jan 3 (Jan 2 missing),
slack_notify's `find_latest_prev` diffs today's (Jan 3) data against the Jan
1 CSV, not against the CSV dated exactly one calendar day before. -/
theorem claim_C5_counterexample :
    find_latest_prev ["data/oliveyoung_global_2025-01-01.csv".data,
        "data/oliveyoung_global_2025-01-03.csv".data] =
      (some "data/oliveyoung_global_2025-01-03.csv".data,
       some "data/oliveyoung_global_2025-01-01.csv".data) ∧
    fmtDate (prevDay (2025, 1, 3)) = "2025-01-02".data ∧
    ¬ "data/oliveyoung_global_2025-01-01.csv".data =
        "data/oliveyoung_global_".data ++ fmtDate (prevDay (2025, 1, 3)) ++ ".csv".data := by
  refine ⟨by decide, by decide, by decide⟩

/-- C5 amended: app.py's `main` does request exactly the previous calendar
day's CSV, but utils.py's `load_previous_csv` and slack_notify.py's
`find_latest_prev` diff against the lexicographically latest snapshot (other
than today's), whatever its date. -/
theorem claim_C5_prev_snapshot_selection :
    (∀ y m d : Nat, app_prev_filename (y, m, d) = build_filename (fmtDate (prevDay (y, m, d)))) ∧
    prevDay (2025, 3, 1) = (2025, 2, 28) ∧
    prevDay (2024, 3, 1) = (2024, 2, 29) ∧
    prevDay (2025, 1, 1) = (2024, 12, 31) ∧
    (∀ files latest prev, find_latest_prev files = (latest, some prev) →
      prev ∈ files ∧ ∃ l, latest = some l ∧ l ∈ files ∧ prev ≤ l ∧ ∀ f ∈ files, f ≤ l) ∧
    (∀ files todayName prev, latest_csv_before files todayName = some prev →
      prev ∈ files ∧ ¬ basename prev = todayName ∧
        ∀ f ∈ files, ¬ basename f = todayName → f ≤ prev) := by
  refine ⟨fun y m d => rfl, by decide, by decide, by decide, ?_, ?_⟩
  · intro files latest prev h
    unfold find_latest_prev at h
    have h1 : (sortedFiles files).getLast? = latest := congrArg Prod.fst h
    have h2 : (sortedFiles files).dropLast.getLast? = some prev := congrArg Prod.snd h
    have hsorted : (sortedFiles files).Sorted (· ≤ ·) :=
      List.sorted_insertionSort (· ≤ ·) files
    have hperm : (sortedFiles files).Perm files := List.perm_insertionSort (· ≤ ·) files
    have hprev_fs : prev ∈ sortedFiles files :=
      (List.dropLast_sublist (sortedFiles files)).subset (getLast?_mem h2)
    have hprev_files : prev ∈ files := hperm.mem_iff.mp hprev_fs
    cases hl : (sortedFiles files).getLast? with
    | none =>
      exfalso
      have : sortedFiles files = [] := by
        cases hfs : sortedFiles files with
        | nil => rfl
        | cons a r =>
          rw [hfs] at hl
          exact absurd hl (by simp [List.getLast?_eq_getLast])
      rw [this] at hprev_fs
      simp at hprev_fs
    | some l =>
      refine ⟨hprev_files, l, by rw [← h1, hl], hperm.mem_iff.mp (getLast?_mem hl),
        le_getLast_of_sorted hsorted hprev_fs hl, ?_⟩
      intro f hf
      exact le_getLast_of_sorted hsorted (hperm.mem_iff.mpr hf) hl
  · intro files todayName prev h
    unfold latest_csv_before at h
    have hsorted : (sortedFiles files).Sorted (· ≤ ·) :=
      List.sorted_insertionSort (· ≤ ·) files
    have hperm : (sortedFiles files).Perm files := List.perm_insertionSort (· ≤ ·) files
    have hsorted' : ((sortedFiles files).filter fun f => !(basename f == todayName)).Sorted
        (· ≤ ·) := List.Pairwise.filter _ hsorted
    have hprev_filt : prev ∈ (sortedFiles files).filter fun f => !(basename f == todayName) :=
      getLast?_mem h
    rw [List.mem_filter] at hprev_filt
    refine ⟨hperm.mem_iff.mp hprev_filt.1, by simpa using hprev_filt.2, ?_⟩
    intro f hf hfneq
    have hf_filt : f ∈ (sortedFiles files).filter fun f => !(basename f == todayName) :=
      List.mem_filter.mpr ⟨hperm.mem_iff.mpr hf, by simpa using hfneq⟩
    exact le_getLast_of_sorted hsorted' hf_filt h

/-- Witness for C5 at a concrete file list with a gap. -/
theorem claim_C5_witness :
    find_latest_prev ["data/oliveyoung_global_2025-01-01.csv".data,
        "data/oliveyoung_global_2025-01-03.csv".data] =
      (some "data/oliveyoung_global_2025-01-03.csv".data,
       some "data/oliveyoung_global_2025-01-01.csv".data) ∧
    ("data/oliveyoung_global_2025-01-01.csv".data ∈
        ["data/oliveyoung_global_2025-01-01.csv".data,
         "data/oliveyoung_global_2025-01-03.csv".data] ∧
      ∃ l, (some "data/oliveyoung_global_2025-01-03.csv".data : Option (List Char)) = some l ∧
        l ∈ ["data/oliveyoung_global_2025-01-01.csv".data,
             "data/oliveyoung_global_2025-01-03.csv".data] ∧
        "data/oliveyoung_global_2025-01-01.csv".data ≤ l ∧
        ∀ f ∈ ["data/oliveyoung_global_2025-01-01.csv".data,
               "data/oliveyoung_global_2025-01-03.csv".data], f ≤ l) :=
  ⟨by decide,
   claim_C5_prev_snapshot_selection.2.2.2.2.1
     ["data/oliveyoung_global_2025-01-01.csv".data,
      "data/oliveyoung_global_2025-01-03.csv".data]
     (some "data/oliveyoung_global_2025-01-03.csv".data)
     "data/oliveyoung_global_2025-01-01.csv".data (by decide)⟩

/-- Witness for C1's key-matching characterisations at concrete rows. -/
theorem claim_C1_witness :
    (⟨some "u".data, some "A".data, some "x".data, 1⟩ : RowU).url =
      (⟨some "u".data, some "A".data, some "x".data, 2⟩ : RowU).url ∧
    (⟨some "u".data, some "A".data, some "x".data, 1⟩ : RowU).brand =
      (⟨some "u".data, some "A".data, some "x".data, 2⟩ : RowU).brand ∧
    (⟨some "u".data, some "A".data, some "x".data, 1⟩ : RowU).name =
      (⟨some "u".data, some "A".data, some "x".data, 2⟩ : RowU).name ∧
    mergeKeyU (⟨some "u".data, some "A".data, some "x".data, 1⟩ : RowU) =
      mergeKeyU (⟨some "u".data, some "A".data, some "x".data, 2⟩ : RowU) :=
  ⟨rfl, rfl, rfl,
   claim_C1_url_key_matching.2.2.2 _ _ rfl rfl rfl⟩
